import Mathlib

/-!
Shallow embedding of `describe_images.py` (AI photo tagger).

Python strings are modelled as `List Char`; bytes as `List Nat` (one `Nat`
per byte, values < 256).  Python `None`-or-string results are `Option (List
Char)`.  An uncaught Python exception is `Except.error ()`; a normal return
is `Except.ok`.  The HTTP interaction of `get_ollama_response` is abstracted
by a `Fetch` value describing how the environment answers the request: the
file open/read can fail, the POST can fail (connection error / timeout), the
status check `raise_for_status` can fail (non-2xx), or a stream of response
lines arrives.  Each streamed line is either empty (skipped by `if line:`),
a line that `json.loads` rejects, or a parsed JSON object, of which only the
two text fields `response` and `message` are relevant (each absent or a
string).  Library calls (`piexif`, PIL) are modelled by their documented
dictionary semantics: an EXIF 0th IFD is an association list from tag id to
bytes, PNG textual metadata is an association list from keyword to text.
-/

/-! ## Python string primitives -/

/-- Python `str` truthiness on whitespace: default `strip`/`split` whitespace
set.  For the characters appearing in this development it agrees with
Python's definition. -/
def isWS (c : Char) : Bool := c.isWhitespace

/-- Leading-whitespace removal (the left half of Python `str.strip()`). -/
def ltrim (s : List Char) : List Char := s.dropWhile isWS

/-- Trailing-whitespace removal (the right half of Python `str.strip()`). -/
def rtrim : List Char → List Char
  | [] => []
  | c :: cs =>
    match rtrim cs with
    | [] => if isWS c then [] else [c]
    | r => c :: r

/-- Python `str.strip()`: drop leading and trailing whitespace. -/
def pyStrip (s : List Char) : List Char := rtrim (ltrim s)

/-- Python `str.split(',')`: split on every comma, keeping empty pieces. -/
def splitOnComma : List Char → List (List Char)
  | [] => [[]]
  | c :: cs =>
    if c = ',' then [] :: splitOnComma cs
    else
      match splitOnComma cs with
      | [] => [[c]]
      | p :: ps => (c :: p) :: ps

/-- Python `', '.join(pieces)`. -/
def joinSep : List (List Char) → List Char
  | [] => []
  | [p] => p
  | p :: q :: rest => p ++ ',' :: ' ' :: joinSep (q :: rest)

/-- The list comprehension `[t.strip() for t in s.split(',') if t.strip()]`
from `get_image_tags`. -/
def tagPieces (s : List Char) : List (List Char) :=
  ((splitOnComma s).map pyStrip).filter (fun p => !p.isEmpty)

/-- The whole tag clean-up of `get_image_tags`:
`', '.join([t.strip() for t in s.split(',') if t.strip()])`. -/
def normTags (s : List Char) : List Char := joinSep (tagPieces s)

/-! ## Model Client (`get_ollama_response`) -/

/-- One line of the streamed HTTP body, as seen by the loop
`for line in response.iter_lines(): if line: ...`.  A parsed JSON object is
reduced to its two relevant text fields `response` and `message`, each either
absent or holding a string.  `garbage` is a non-empty line on which
`json.loads` raises. -/
inductive Line where
  | empty : Line
  | garbage : Line
  | json (response message : Option (List Char)) : Line
deriving DecidableEq

/-- Python `a or b` on optional strings: `a` when it is a non-empty (truthy)
string, otherwise `b`.  This is `obj.get('response') or obj.get('message')`. -/
def pyOr (a b : Option (List Char)) : Option (List Char) :=
  match a with
  | some s => if s.isEmpty then b else some s
  | none => b

/-- One step of the accumulation loop, threading the accumulator `result`
and the list of `[ERROR]` log lines printed so far. -/
def accumStep (st : List Char × List (List Char)) (l : Line) :
    List Char × List (List Char) :=
  match l with
  | .empty => st
  | .garbage =>
    (st.1, st.2 ++ ["[ERROR] Could not parse JSON from Ollama".toList])
  | .json r m =>
    match pyOr r m with
    | some part => if part.isEmpty then st else (st.1 ++ part, st.2)
    | none => st

/-- Running the accumulation loop over the whole stream, starting from
`result = ''` and no log lines. -/
def runStream (ls : List Line) : List Char × List (List Char) :=
  ls.foldl accumStep ([], [])

/-- `return result.strip() if result else None`. -/
def streamResult (ls : List Line) : Option (List Char) :=
  let r := (runStream ls).1
  if r.isEmpty then none else some (pyStrip r)

/-- How the environment answers one request of the Model Client.  `openError`
is a failure of `open(image_path, 'rb')` / `.read()` — these sit OUTSIDE the
`try` block of the source.  `connError`, `httpError` (a non-2xx status, made
into an exception by `raise_for_status`) and `timeoutError` are raised inside
the `try`. -/
inductive Fetch where
  | openError : Fetch
  | connError : Fetch
  | httpError : Fetch
  | timeoutError : Fetch
  | stream (lines : List Line) : Fetch
deriving DecidableEq

/-- `get_ollama_response`: an exception from the file open/read propagates to
the caller (`open` is outside the `try`); every exception raised inside the
`try` is caught, logged and turned into `None`; otherwise the streamed lines
are accumulated and the stripped accumulator (or `None` if it is empty) is
returned. -/
def get_ollama_response (f : Fetch) : Except Unit (Option (List Char)) :=
  match f with
  | .openError => .error ()
  | .connError => .ok none
  | .httpError => .ok none
  | .timeoutError => .ok none
  | .stream ls => .ok (streamResult ls)

/-- `get_image_caption`: delegates to `get_ollama_response` with the fixed
caption prompt (the prompt only affects the request payload, which is
abstracted into `Fetch`). -/
def get_image_caption (f : Fetch) : Except Unit (Option (List Char)) :=
  get_ollama_response f

/-- `get_image_tags`: delegates to `get_ollama_response`, then
`if tags: return ', '.join([t.strip() for t in tags.split(',') if t.strip()])`
`return None`. -/
def get_image_tags (f : Fetch) : Except Unit (Option (List Char)) :=
  match get_ollama_response f with
  | .error e => .error e
  | .ok tags =>
    .ok (match tags with
         | some t => if t.isEmpty then none else some (normTags t)
         | none => none)

/-! ## Byte encodings used by the writers -/

/-- UTF-8 encoding of a single code point (`str.encode('utf-8')`, per
character; Lean's `Char` excludes the surrogate range, as Python's encoder
does by raising on surrogates). -/
def utf8EncodeChar (n : Nat) : List Nat :=
  if n < 0x80 then [n]
  else if n < 0x800 then [0xC0 + n / 64, 0x80 + n % 64]
  else if n < 0x10000 then
    [0xE0 + n / 4096, 0x80 + n / 64 % 64, 0x80 + n % 64]
  else
    [0xF0 + n / 262144, 0x80 + n / 4096 % 64, 0x80 + n / 64 % 64, 0x80 + n % 64]

/-- `caption.encode('utf-8')`. -/
def utf8Encode (s : List Char) : List Nat :=
  (s.map (fun c => utf8EncodeChar c.toNat)).flatten

/-- UTF-8 decoding to code points, as a streaming state machine (how a reader
recovers the stored text).  The state is `none`, or `some (v, k)`: a
partially assembled code point `v` still expecting `k` continuation bytes.
Stray or truncated sequences (never produced by the encoder) are dropped. -/
def utf8DecodeAux : Option (Nat × Nat) → List Nat → List Nat
  | _, [] => []
  | none, b :: rest =>
    if b < 0x80 then b :: utf8DecodeAux none rest
    else if b < 0xC0 then utf8DecodeAux none rest
    else if b < 0xE0 then utf8DecodeAux (some (b - 0xC0, 1)) rest
    else if b < 0xF0 then utf8DecodeAux (some (b - 0xE0, 2)) rest
    else utf8DecodeAux (some (b - 0xF0, 3)) rest
  | some (v, k), b :: rest =>
    if k = 1 then (v * 64 + (b - 0x80)) :: utf8DecodeAux none rest
    else utf8DecodeAux (some (v * 64 + (b - 0x80), k - 1)) rest

/-- UTF-8 decoding to code points. -/
def utf8DecodeNats (bs : List Nat) : List Nat := utf8DecodeAux none bs

/-- UTF-8 decoding to a string. -/
def utf8Decode (bs : List Nat) : List Char := (utf8DecodeNats bs).map Char.ofNat

/-- UTF-16LE encoding of a single code point (`str.encode('utf-16le')`, per
character): one little-endian 16-bit unit below `0x10000`, else a surrogate
pair. -/
def utf16leEncodeChar (n : Nat) : List Nat :=
  if n < 0x10000 then [n % 256, n / 256]
  else
    let m := n - 0x10000
    let hi := 0xD800 + m / 0x400
    let lo := 0xDC00 + m % 0x400
    [hi % 256, hi / 256, lo % 256, lo / 256]

/-- `tags.encode('utf-16le')`. -/
def utf16leEncode (s : List Char) : List Nat :=
  (s.map (fun c => utf16leEncodeChar c.toNat)).flatten

/-- Pair up little-endian byte pairs into 16-bit code units. -/
def utf16Units : List Nat → List Nat
  | b0 :: b1 :: rest => (b0 + 256 * b1) :: utf16Units rest
  | _ => []

/-- Combine UTF-16 code units into code points, as a streaming state machine
(surrogate pairs merged).  The state is a pending high surrogate, if any;
unpaired surrogates (never produced by the encoder) are passed through. -/
def utf16CPAux : Option Nat → List Nat → List Nat
  | none, [] => []
  | some u, [] => [u]
  | none, u :: rest =>
    if 0xD800 ≤ u ∧ u < 0xDC00 then utf16CPAux (some u) rest
    else u :: utf16CPAux none rest
  | some u, v :: rest =>
    if 0xDC00 ≤ v ∧ v < 0xE000 then
      (0x10000 + (u - 0xD800) * 0x400 + (v - 0xDC00)) :: utf16CPAux none rest
    else if 0xD800 ≤ v ∧ v < 0xDC00 then u :: utf16CPAux (some v) rest
    else u :: v :: utf16CPAux none rest

/-- Combine UTF-16 code units into code points. -/
def utf16CodePoints (us : List Nat) : List Nat := utf16CPAux none us

/-- UTF-16LE decoding of a byte string back to text. -/
def utf16leDecode (bs : List Nat) : List Char :=
  (utf16CodePoints (utf16Units bs)).map Char.ofNat

/-- Remove the trailing double-null terminator from an XPKeywords value. -/
def trimDoubleNull (bs : List Nat) : List Nat :=
  match bs.reverse with
  | 0 :: 0 :: r => r.reverse
  | _ => bs

/-! ## Metadata writers -/

/-- Association-list lookup in an EXIF IFD (tag id → raw bytes). -/
def getTag (d : List (Nat × List Nat)) (k : Nat) : Option (List Nat) :=
  match d with
  | [] => none
  | (k2, v) :: rest => if k2 = k then some v else getTag rest k

/-- Association-list update in an EXIF IFD: `exif_dict['0th'][k] = v`. -/
def setTag (d : List (Nat × List Nat)) (k : Nat) (v : List Nat) :
    List (Nat × List Nat) :=
  match d with
  | [] => [(k, v)]
  | (k2, v2) :: rest =>
    if k2 = k then (k, v) :: rest else (k2, v2) :: setTag rest k v

/-- `piexif.ImageIFD.ImageDescription`. -/
def ImageDescriptionTag : Nat := 270

/-- The Windows keywords tag id used by the source (`XPKeywords`). -/
def XPKeywordsTag : Nat := 40094

/-- `add_caption_and_tags_to_jpeg`, at the level of the 0th IFD dictionary it
mutates: sets `ImageDescription` to the UTF-8 caption, and — only when `tags`
is truthy — sets tag 40094 to the UTF-16LE tag string plus a double null.
The dictionary is then dumped and saved back into the file. -/
def add_caption_and_tags_to_jpeg (exif0th : List (Nat × List Nat))
    (caption : List Char) (tags : Option (List Char)) : List (Nat × List Nat) :=
  let d1 := setTag exif0th ImageDescriptionTag (utf8Encode caption)
  match tags with
  | some t => if t.isEmpty then d1 else setTag d1 XPKeywordsTag (utf16leEncode t ++ [0, 0])
  | none => d1

/-- `add_caption_and_tags_to_png`, at the level of the `PngInfo` text-chunk
container it builds: a FRESH container (the text chunks `oldText` of the
opened file are not consulted) holding `Description`, and `Keywords` only
when `tags` is truthy; `img.save(image_path, pnginfo=...)` then rewrites the
file with exactly these text chunks. -/
def add_caption_and_tags_to_png (oldText : List (List Char × List Char))
    (caption : List Char) (tags : Option (List Char)) :
    List (List Char × List Char) :=
  let pnginfo : List (List Char × List Char) := []
  let pnginfo := pnginfo ++ [("Description".toList, caption)]
  match tags with
  | some t => if t.isEmpty then pnginfo else pnginfo ++ [("Keywords".toList, t)]
  | none => pnginfo

/-! ## Folder walker / driver -/

/-- `os.path.splitext(fname)[1]` for a bare file name: the suffix starting at
the last dot, provided some character strictly before that dot is not itself
a dot (leading dots never start an extension); otherwise the empty string.
`seen` records whether a non-dot character has occurred so far. -/
def extAux (seen : Bool) : List Char → Option (List Char)
  | [] => none
  | c :: rest =>
    if c = '.' then
      match extAux seen rest with
      | some e => some e
      | none => if seen then some (c :: rest) else none
    else extAux true rest

/-- `os.path.splitext(fname)[1]`, with `''` for "no extension". -/
def extOf (name : List Char) : List Char := (extAux false name).getD []

/-- `os.path.splitext(fname)[1].lower()`. -/
def lowerExt (name : List Char) : List Char := (extOf name).map Char.toLower

/-- `SUPPORTED_EXTENSIONS = ['.jpg', '.jpeg', '.png']`. -/
def SUPPORTED_EXTENSIONS : List (List Char) :=
  [".jpg".toList, ".jpeg".toList, ".png".toList]

/-- The observable actions of `process_folder` on one file, in program
order: the `[INFO] Processing` print, a call of the JPEG or PNG writer (with
the caption and the raw tags value it receives), the `[CAPTION]` print, the
`[TAGS]` print, and the `[WARN] No caption` print. -/
inductive Event where
  | info (name : List Char) : Event
  | jpegWrite (name caption : List Char) (tags : Option (List Char)) : Event
  | pngWrite (name caption : List Char) (tags : Option (List Char)) : Event
  | captionLog (name caption : List Char) : Event
  | tagsLog (name tags : List Char) : Event
  | warnNoCaption (name : List Char) : Event
deriving DecidableEq

/-- One file met by the walk: its name and how the environment answers the
two Model-Client requests made for it (caption first, then tags). -/
structure FileEntry where
  name : List Char
  captionFetch : Fetch
  tagsFetch : Fetch

/-- The body of the `if caption:` dispatch of `process_folder`, producing
the observable events after both requests returned:  a truthy caption
selects the writer by extension and logs, otherwise a warning is printed. -/
def fileEvents (ext name : List Char) (caption tags : Option (List Char)) :
    List Event :=
  match caption with
  | some c =>
    if c.isEmpty then [Event.warnNoCaption name]
    else
      (if ext ∈ [".jpg".toList, ".jpeg".toList] then [Event.jpegWrite name c tags]
       else if ext = ".png".toList then [Event.pngWrite name c tags]
       else [])
      ++ [Event.captionLog name c]
      ++ (match tags with
          | some t => if t.isEmpty then [] else [Event.tagsLog name t]
          | none => [])
  | none => [Event.warnNoCaption name]

/-- Processing of one file by `process_folder`: files whose lowered extension
is not supported are skipped with no action; otherwise the caption and then
the tags are requested (an exception from either propagates) and the events
are emitted. -/
def processFile (f : FileEntry) : Except Unit (List Event) :=
  if lowerExt f.name ∈ SUPPORTED_EXTENSIONS then
    match get_image_caption f.captionFetch with
    | .error e => .error e
    | .ok caption =>
      match get_image_tags f.tagsFetch with
      | .error e => .error e
      | .ok tags =>
        .ok (Event.info f.name :: fileEvents (lowerExt f.name) f.name caption tags)
  else .ok []

/-- `process_folder` over the files found by `os.walk`, in order: each file
is processed in turn; an uncaught exception aborts the whole walk. -/
def process_folder (files : List FileEntry) : Except Unit (List Event) :=
  match files with
  | [] => .ok []
  | f :: rest =>
    match processFile f with
    | .error e => .error e
    | .ok evs =>
      match process_folder rest with
      | .error e => .error e
      | .ok evs2 => .ok (evs ++ evs2)

/-! ## Stream accumulation lemmas -/

/-- The text one line contributes to the accumulator. -/
def lineText (l : Line) : List Char :=
  match l with
  | .empty => []
  | .garbage => []
  | .json r m =>
    match pyOr r m with
    | some s => s
    | none => []

/-- The log lines one streamed line causes. -/
def lineLogs (l : Line) : List (List Char) :=
  match l with
  | .garbage => ["[ERROR] Could not parse JSON from Ollama".toList]
  | _ => []

instance {e a : Type} [DecidableEq e] [DecidableEq a] : DecidableEq (Except e a) :=
  fun x y =>
    match x, y with
    | .ok v, .ok w =>
      if h : v = w then isTrue (by rw [h]) else isFalse (by simp [h])
    | .error v, .error w =>
      if h : v = w then isTrue (by rw [h]) else isFalse (by simp [h])
    | .ok _, .error _ => isFalse (by simp)
    | .error _, .ok _ => isFalse (by simp)

theorem accumStep_eq (st : List Char × List (List Char)) (l : Line) :
    accumStep st l = (st.1 ++ lineText l, st.2 ++ lineLogs l) := by
  cases l with
  | empty => simp [accumStep, lineText, lineLogs]
  | garbage => simp [accumStep, lineText, lineLogs]
  | json r m =>
    simp only [accumStep, lineText, lineLogs]
    cases h : pyOr r m with
    | none => simp
    | some s =>
      by_cases hs : s.isEmpty
      · simp_all [List.isEmpty_iff]
      · simp [hs]

theorem foldl_accumStep (ls : List Line) (st : List Char × List (List Char)) :
    ls.foldl accumStep st = (st.1 ++ (runStream ls).1, st.2 ++ (runStream ls).2) := by
  induction ls generalizing st with
  | nil => simp [runStream]
  | cons l ls ih =>
    show (l :: ls).foldl accumStep st = _
    rw [List.foldl_cons, ih]
    have h2 : runStream (l :: ls) = ls.foldl accumStep (accumStep ([], []) l) := by
      simp [runStream]
    rw [h2, ih (accumStep ([], []) l), accumStep_eq, accumStep_eq]
    simp

theorem runStream_append (xs ys : List Line) :
    runStream (xs ++ ys) =
      ((runStream xs).1 ++ (runStream ys).1, (runStream xs).2 ++ (runStream ys).2) := by
  show (xs ++ ys).foldl accumStep ([], []) = _
  rw [List.foldl_append]
  rw [foldl_accumStep ys (xs.foldl accumStep ([], []))]
  rfl

/-! ## Tag normalization lemmas -/

theorem ltrim_ltrim (s : List Char) : ltrim (ltrim s) = ltrim s := by
  induction s with
  | nil => rfl
  | cons c cs ih =>
    by_cases h : isWS c
    · simp [ltrim, List.dropWhile_cons, h] at ih ⊢
      exact ih
    · simp [ltrim, List.dropWhile_cons, h]

theorem rtrim_cons (c : Char) (s : List Char) :
    rtrim (c :: s) =
      match rtrim s with
      | [] => if isWS c then [] else [c]
      | r => c :: r := rfl

theorem rtrim_rtrim (s : List Char) : rtrim (rtrim s) = rtrim s := by
  induction s with
  | nil => rfl
  | cons c cs ih =>
    cases h : rtrim cs with
    | nil =>
      by_cases hw : isWS c
      · rw [rtrim_cons, h]
        simp [hw, rtrim]
      · rw [rtrim_cons, h]
        simp [hw, rtrim]
    | cons x xs =>
      have h1 : rtrim (c :: cs) = c :: x :: xs := by rw [rtrim_cons, h]
      have h2 : rtrim (x :: xs) = x :: xs := by rw [← h]; exact ih
      rw [h1, rtrim_cons, h2]

theorem mem_rtrim {a : Char} {s : List Char} (h : a ∈ rtrim s) : a ∈ s := by
  induction s with
  | nil => simp [rtrim] at h
  | cons c cs ih =>
    simp only [rtrim] at h
    cases h2 : rtrim cs with
    | nil =>
      rw [h2] at h
      by_cases hw : isWS c <;> simp [hw] at h
      simp [h]
    | cons x xs =>
      rw [h2] at h
      rcases List.mem_cons.mp h with h3 | h3
      · simp [h3]
      · exact List.mem_cons_of_mem _ (ih (h2 ▸ h3))

theorem mem_ltrim {a : Char} {s : List Char} (h : a ∈ ltrim s) : a ∈ s :=
  (List.dropWhile_sublist isWS).mem h

theorem mem_pyStrip {a : Char} {s : List Char} (h : a ∈ pyStrip s) : a ∈ s :=
  mem_ltrim (mem_rtrim h)

theorem ltrim_rtrim_fixed {s : List Char} (h : ltrim s = s) :
    ltrim (rtrim s) = rtrim s := by
  cases s with
  | nil => rfl
  | cons c cs =>
    have hc : ¬ isWS c = true := by
      intro hw
      have h1 : ltrim (c :: cs) = ltrim cs := by simp [ltrim, List.dropWhile_cons, hw]
      have h2 : (ltrim cs).length ≤ cs.length :=
        (List.dropWhile_sublist (l := cs) isWS).length_le
      rw [h1] at h
      have := congrArg List.length h
      simp at this
      omega
    cases h2 : rtrim cs with
    | nil =>
      rw [rtrim_cons, h2]
      simp [hc, ltrim, List.dropWhile_cons]
    | cons x xs =>
      rw [rtrim_cons, h2]
      simp [hc, ltrim, List.dropWhile_cons]

theorem pyStrip_idem (s : List Char) : pyStrip (pyStrip s) = pyStrip s := by
  show rtrim (ltrim (rtrim (ltrim s))) = rtrim (ltrim s)
  rw [ltrim_rtrim_fixed (ltrim_ltrim s), rtrim_rtrim]

theorem pyStrip_cons_ws {c : Char} (hw : isWS c) (s : List Char) :
    pyStrip (c :: s) = pyStrip s := by
  show rtrim (ltrim (c :: s)) = rtrim (ltrim s)
  simp [ltrim, List.dropWhile_cons, hw]

theorem splitOnComma_ne_nil (s : List Char) : splitOnComma s ≠ [] := by
  cases s with
  | nil => simp [splitOnComma]
  | cons c cs =>
    by_cases h : c = ','
    · simp [splitOnComma, h]
    · simp only [splitOnComma, if_neg h]
      cases splitOnComma cs <;> simp

theorem notMem_of_mem_splitOnComma {p : List Char} {s : List Char}
    (h : p ∈ splitOnComma s) : ',' ∉ p := by
  induction s generalizing p with
  | nil =>
    simp [splitOnComma] at h
    simp [h]
  | cons c cs ih =>
    by_cases hc : c = ','
    · simp only [splitOnComma, if_pos hc] at h
      rcases List.mem_cons.mp h with h2 | h2
      · simp [h2]
      · exact ih h2
    · simp only [splitOnComma, if_neg hc] at h
      cases h2 : splitOnComma cs with
      | nil => exact absurd h2 (splitOnComma_ne_nil cs)
      | cons q qs =>
        rw [h2] at h
        rcases List.mem_cons.mp h with h3 | h3
        · subst h3
          intro hmem
          rcases List.mem_cons.mp hmem with h4 | h4
          · exact hc h4.symm
          · exact ih (h2 ▸ List.mem_cons_self q qs) h4
        · exact ih (h2 ▸ List.mem_cons_of_mem q h3)

theorem splitOnComma_of_noComma {s : List Char} (h : ',' ∉ s) :
    splitOnComma s = [s] := by
  induction s with
  | nil => rfl
  | cons c cs ih =>
    have hc : ¬ c = ',' := fun hc => h (hc ▸ List.mem_cons_self c cs)
    have hcs : ',' ∉ cs := fun h2 => h (List.mem_cons_of_mem c h2)
    simp [splitOnComma, if_neg hc, ih hcs]

theorem splitOnComma_cons {c : Char} (hc : ¬ c = ',') {s : List Char}
    {p : List Char} {ps : List (List Char)} (h : splitOnComma s = p :: ps) :
    splitOnComma (c :: s) = (c :: p) :: ps := by
  simp [splitOnComma, if_neg hc, h]

theorem splitOnComma_append_comma {xs : List Char} (ys : List Char)
    (h : ',' ∉ xs) :
    splitOnComma (xs ++ ',' :: ys) = xs :: splitOnComma ys := by
  induction xs with
  | nil => simp [splitOnComma]
  | cons x xs ih =>
    have hx : ¬ x = ',' := fun hx => h (hx ▸ List.mem_cons_self x xs)
    have hxs : ',' ∉ xs := fun h2 => h (List.mem_cons_of_mem x h2)
    rw [List.cons_append]
    exact splitOnComma_cons hx (ih hxs)

theorem tagPieces_joinSep (L : List (List Char))
    (h : ∀ p ∈ L, p ≠ [] ∧ pyStrip p = p ∧ ',' ∉ p) :
    tagPieces (joinSep L) = L := by
  induction L with
  | nil => decide
  | cons p L2 ih =>
    obtain ⟨hne, hstrip, hnc⟩ := h p (List.mem_cons_self p L2)
    have hpe : p.isEmpty = false := by
      cases p
      · exact absurd rfl hne
      · rfl
    cases L2 with
    | nil =>
      show tagPieces p = [p]
      simp only [tagPieces, splitOnComma_of_noComma hnc, List.map_cons,
        List.map_nil, hstrip, List.filter_cons, hpe]
      simp
    | cons q rest =>
      have ihq : tagPieces (joinSep (q :: rest)) = q :: rest :=
        ih (fun r hr => h r (List.mem_cons_of_mem p hr))
      cases hS : splitOnComma (joinSep (q :: rest)) with
      | nil => exact absurd hS (splitOnComma_ne_nil _)
      | cons hd tl =>
        have e1 : splitOnComma (joinSep (p :: q :: rest)) = p :: (' ' :: hd) :: tl := by
          show splitOnComma (p ++ ',' :: ' ' :: joinSep (q :: rest)) = _
          rw [splitOnComma_append_comma _ hnc, splitOnComma_cons (by decide) hS]
        have e2 : tagPieces (joinSep (q :: rest)) =
            ((hd :: tl).map pyStrip).filter (fun x => !x.isEmpty) := by
          simp only [tagPieces]
          rw [hS]
        calc tagPieces (joinSep (p :: q :: rest))
            = ((p :: (' ' :: hd) :: tl).map pyStrip).filter (fun x => !x.isEmpty) := by
              simp only [tagPieces]
              rw [e1]
          _ = p :: ((hd :: tl).map pyStrip).filter (fun x => !x.isEmpty) := by
              simp only [List.map_cons]
              rw [hstrip, pyStrip_cons_ws (by decide)]
              simp [List.filter_cons, hpe]
          _ = p :: tagPieces (joinSep (q :: rest)) := by rw [e2]
          _ = p :: q :: rest := by rw [ihq]

theorem normTags_idem (s : List Char) : normTags (normTags s) = normTags s := by
  have h : ∀ p ∈ tagPieces s, p ≠ [] ∧ pyStrip p = p ∧ ',' ∉ p := by
    intro p hp
    simp only [tagPieces, List.mem_filter, List.mem_map] at hp
    obtain ⟨⟨q, hq, rfl⟩, hne⟩ := hp
    refine ⟨?_, pyStrip_idem q, ?_⟩
    · intro h0
      rw [h0] at hne
      simp at hne
    · intro hc
      exact notMem_of_mem_splitOnComma hq (mem_pyStrip hc)
  show joinSep (tagPieces (joinSep (tagPieces s))) = joinSep (tagPieces s)
  rw [tagPieces_joinSep _ h]

/-! ## Encoding round-trip lemmas -/

theorem char_toNat_valid (c : Char) :
    c.toNat < 0xD800 ∨ (0xDFFF < c.toNat ∧ c.toNat < 0x110000) := c.valid

theorem char_toNat_lt (c : Char) : c.toNat < 0x110000 := by
  rcases char_toNat_valid c with h | ⟨h1, h2⟩ <;> omega


theorem utf8DecodeAux_append_encodeChar (n : Nat) (h : n < 0x110000)
    (rest : List Nat) :
    utf8DecodeAux none (utf8EncodeChar n ++ rest) =
      n :: utf8DecodeAux none rest := by
  by_cases h1 : n < 0x80
  · have e : utf8EncodeChar n = [n] := by
      unfold utf8EncodeChar
      rw [if_pos h1]
    rw [e]
    simp only [List.cons_append, List.nil_append, utf8DecodeAux]
    rw [if_pos h1]
    rfl
  · by_cases h2 : n < 0x800
    · have e : utf8EncodeChar n = [0xC0 + n / 64, 0x80 + n % 64] := by
        unfold utf8EncodeChar
        rw [if_neg h1, if_pos h2]
      rw [e]
      simp only [List.cons_append, List.nil_append, utf8DecodeAux]
      rw [if_neg (by omega), if_neg (by omega), if_pos (by omega),
        if_pos True.intro]
      simp only [List.cons.injEq]
      exact ⟨by omega, by trivial⟩
    · by_cases h3 : n < 0x10000
      · have e : utf8EncodeChar n =
            [0xE0 + n / 4096, 0x80 + n / 64 % 64, 0x80 + n % 64] := by
          unfold utf8EncodeChar
          rw [if_neg h1, if_neg h2, if_pos h3]
        rw [e]
        simp only [List.cons_append, List.nil_append, utf8DecodeAux]
        rw [if_neg (by omega), if_neg (by omega), if_neg (by omega),
          if_pos (by omega), if_neg (show ¬((2 : Nat) = 1) by decide),
          if_pos True.intro]
        simp only [List.cons.injEq]
        exact ⟨by omega, by trivial⟩
      · have e : utf8EncodeChar n =
            [0xF0 + n / 262144, 0x80 + n / 4096 % 64, 0x80 + n / 64 % 64,
             0x80 + n % 64] := by
          unfold utf8EncodeChar
          rw [if_neg h1, if_neg h2, if_neg h3]
        rw [e]
        simp only [List.cons_append, List.nil_append, utf8DecodeAux]
        rw [if_neg (by omega), if_neg (by omega), if_neg (by omega),
          if_neg (by omega), if_neg (show ¬((3 : Nat) = 1) by decide),
          if_neg (show ¬((3 : Nat) - 1 = 1) by decide), if_pos True.intro]
        simp only [List.cons.injEq]
        exact ⟨by omega, by trivial⟩

theorem utf8DecodeNats_encode (s : List Char) :
    utf8DecodeNats (utf8Encode s) = s.map Char.toNat := by
  induction s with
  | nil => rfl
  | cons c cs ih =>
    unfold utf8DecodeNats at ih ⊢
    rw [show utf8Encode (c :: cs) = utf8EncodeChar c.toNat ++ utf8Encode cs from rfl]
    rw [utf8DecodeAux_append_encodeChar _ (char_toNat_lt c), ih]
    rfl

theorem utf8Decode_encode (s : List Char) : utf8Decode (utf8Encode s) = s := by
  show (utf8DecodeNats (utf8Encode s)).map Char.ofNat = s
  rw [utf8DecodeNats_encode, List.map_map]
  have e : Char.ofNat ∘ Char.toNat = id := funext Char.ofNat_toNat
  rw [e, List.map_id]

theorem utf16Units_pair (b0 b1 : Nat) (l : List Nat) :
    utf16Units (b0 :: b1 :: l) = (b0 + 256 * b1) :: utf16Units l := rfl

theorem utf16_append_encodeChar (c : Char) (rest : List Nat) :
    utf16CPAux none (utf16Units (utf16leEncodeChar c.toNat ++ rest)) =
      c.toNat :: utf16CPAux none (utf16Units rest) := by
  have hlt : c.toNat < 0x110000 := char_toNat_lt c
  by_cases h1 : c.toNat < 0x10000
  · have e : utf16leEncodeChar c.toNat = [c.toNat % 256, c.toNat / 256] := by
      unfold utf16leEncodeChar
      rw [if_pos h1]
    rw [e]
    simp only [List.cons_append, List.nil_append, utf16Units_pair]
    have hv : c.toNat % 256 + 256 * (c.toNat / 256) = c.toNat := by omega
    rw [hv]
    simp only [utf16CPAux]
    rw [if_neg (by rcases char_toNat_valid c with h | h <;> omega)]
  · have e : utf16leEncodeChar c.toNat =
        [(0xD800 + (c.toNat - 0x10000) / 0x400) % 256,
         (0xD800 + (c.toNat - 0x10000) / 0x400) / 256,
         (0xDC00 + (c.toNat - 0x10000) % 0x400) % 256,
         (0xDC00 + (c.toNat - 0x10000) % 0x400) / 256] := by
      unfold utf16leEncodeChar
      rw [if_neg h1]
    rw [e]
    simp only [List.cons_append, List.nil_append, utf16Units_pair]
    have ehi : (0xD800 + (c.toNat - 0x10000) / 0x400) % 256 +
        256 * ((0xD800 + (c.toNat - 0x10000) / 0x400) / 256) =
        0xD800 + (c.toNat - 0x10000) / 0x400 := by omega
    have elo : (0xDC00 + (c.toNat - 0x10000) % 0x400) % 256 +
        256 * ((0xDC00 + (c.toNat - 0x10000) % 0x400) / 256) =
        0xDC00 + (c.toNat - 0x10000) % 0x400 := by omega
    rw [ehi, elo]
    simp only [utf16CPAux]
    rw [if_pos (by omega), if_pos (by omega)]
    simp only [List.cons.injEq]
    refine ⟨by omega, ?_⟩
    trivial

theorem utf16_decode_encode_nats (s : List Char) :
    utf16CodePoints (utf16Units (utf16leEncode s)) = s.map Char.toNat := by
  induction s with
  | nil => rfl
  | cons c cs ih =>
    unfold utf16CodePoints at ih ⊢
    rw [show utf16leEncode (c :: cs) = utf16leEncodeChar c.toNat ++ utf16leEncode cs
      from rfl]
    rw [utf16_append_encodeChar, ih]
    rfl

theorem utf16leDecode_encode (s : List Char) :
    utf16leDecode (utf16leEncode s) = s := by
  show (utf16CodePoints (utf16Units (utf16leEncode s))).map Char.ofNat = s
  rw [utf16_decode_encode_nats, List.map_map]
  have e : Char.ofNat ∘ Char.toNat = id := funext Char.ofNat_toNat
  rw [e, List.map_id]

theorem trimDoubleNull_append (bs : List Nat) :
    trimDoubleNull (bs ++ [0, 0]) = bs := by
  show (match (bs ++ [0, 0]).reverse with
        | 0 :: 0 :: r => r.reverse
        | _ => bs ++ [0, 0]) = bs
  rw [List.reverse_append]
  simp

/-! ## Association list lemmas for the EXIF dictionary -/

theorem getTag_setTag_self (d : List (Nat × List Nat)) (k : Nat) (v : List Nat) :
    getTag (setTag d k v) k = some v := by
  induction d with
  | nil => simp [setTag, getTag]
  | cons kv rest ih =>
    obtain ⟨k2, v2⟩ := kv
    by_cases h : k2 = k
    · simp [setTag, h, getTag]
    · simp [setTag, h, getTag, ih]

theorem getTag_setTag_ne (d : List (Nat × List Nat)) {k k2 : Nat}
    (hne : k ≠ k2) (v : List Nat) :
    getTag (setTag d k v) k2 = getTag d k2 := by
  induction d with
  | nil => simp [setTag, getTag, hne]
  | cons kv rest ih =>
    obtain ⟨k3, v3⟩ := kv
    by_cases h : k3 = k
    · simp [setTag, h, getTag, hne]
    · simp [setTag, h, getTag, ih]

/-! ## Stream helper -/

theorem runStream_garbage_cons (post : List Line) :
    runStream (Line.garbage :: post) =
      ((runStream post).1,
       "[ERROR] Could not parse JSON from Ollama".toList :: (runStream post).2) := by
  show (Line.garbage :: post).foldl accumStep ([], []) = _
  rw [List.foldl_cons, foldl_accumStep]
  simp [accumStep]

/-! ## The claims -/

/-- C1 (counterexample): the claim says every failure inside the Model Client
— including a file-read error — makes `get_ollama_response` return `None` and
never propagates; in fact a file-read error IS propagated (the `open` sits
outside the `try`), and it aborts the folder walk: with a first file whose
open fails and a healthy second file, `process_folder` ends in an uncaught
exception instead of processing the second file. -/
theorem claim_C1_counterexample :
    get_ollama_response Fetch.openError = Except.error () ∧
    get_ollama_response Fetch.openError ≠ Except.ok none ∧
    process_folder
      [⟨"a.jpg".toList, Fetch.openError, Fetch.connError⟩,
       ⟨"b.jpg".toList, Fetch.stream [Line.json (some "x".toList) none],
        Fetch.stream []⟩] = Except.error () := by
  refine ⟨rfl, by decide, ?_⟩
  decide

/-- C1 (amended): for a network/connection error, a non-success HTTP status
(raised by `raise_for_status`) or a request timeout, `get_ollama_response`
logs and returns `None` without propagating; a file-read error, however, is
raised out of the function (its `open` is outside the `try` block) and halts
the folder walk at that file. -/
theorem claim_C1_amended :
    get_ollama_response Fetch.connError = Except.ok none ∧
    get_ollama_response Fetch.httpError = Except.ok none ∧
    get_ollama_response Fetch.timeoutError = Except.ok none ∧
    get_ollama_response Fetch.openError = Except.error () ∧
    (∀ (rest : List FileEntry) (tf : Fetch),
      process_folder (⟨"a.jpg".toList, Fetch.openError, tf⟩ :: rest) =
        Except.error ()) := by
  refine ⟨rfl, rfl, rfl, rfl, ?_⟩
  intro rest tf
  have h : processFile ⟨"a.jpg".toList, Fetch.openError, tf⟩ = Except.error () := by
    simp [processFile, get_image_caption, get_ollama_response, lowerExt]
    decide
  simp only [process_folder]
  rw [h]

/-- C2: a non-empty streamed line that fails to parse as JSON is logged and
skipped without aborting accumulation of the remaining lines — dropping the
garbage line from any stream leaves the accumulated text unchanged, and one
`[ERROR]` line is printed for it; concretely the four-line stream
`{"response":"A "}{"response":"cat"}<garbage>{"response":" sleeping."}`
accumulates to `"A cat sleeping."`. -/
theorem claim_C2 :
    (∀ pre post : List Line,
      (runStream (pre ++ Line.garbage :: post)).1 = (runStream (pre ++ post)).1 ∧
      (runStream (pre ++ Line.garbage :: post)).2 =
        (runStream pre).2 ++
          "[ERROR] Could not parse JSON from Ollama".toList ::
            (runStream post).2) ∧
    streamResult
      [Line.json (some "A ".toList) none, Line.json (some "cat".toList) none,
       Line.garbage, Line.json (some " sleeping.".toList) none] =
      some "A cat sleeping.".toList := by
  constructor
  · intro pre post
    rw [show pre ++ Line.garbage :: post = pre ++ ((Line.garbage :: post) : List Line)
      from rfl]
    rw [runStream_append pre (Line.garbage :: post), runStream_append pre post,
      runStream_garbage_cons]
    simp
  · decide

/-- C3 (counterexample): the claim says the Model Client falls back to the
`message` field ONLY if `response` is absent from the object; in fact Python
`or` also falls back when `response` is present but empty: on the single line
`{"response":"","message":"hi"}` the accumulator receives `"hi"` even though
`response` is present. -/
theorem claim_C3_counterexample :
    (some ([] : List Char)) ≠ (none : Option (List Char)) ∧
    pyOr (some ([] : List Char)) (some "hi".toList) = some "hi".toList ∧
    (runStream [Line.json (some []) (some "hi".toList)]).1 = "hi".toList := by
  decide

/-- C3 (amended): for each parsed line the Model Client extracts `response`
when it is present and non-empty, and otherwise falls back to `message` —
also when `response` is present but empty (Python `or` tests truthiness, not
presence); extracted text is appended to the accumulator in arrival order
(the accumulated text of a concatenated stream is the concatenation of the
accumulated texts). -/
theorem claim_C3_amended :
    (∀ (s : List Char) (m : Option (List Char)), s ≠ [] →
      pyOr (some s) m = some s) ∧
    (∀ m : Option (List Char), pyOr none m = m) ∧
    (∀ m : Option (List Char), pyOr (some []) m = m) ∧
    (∀ xs ys : List Line,
      (runStream (xs ++ ys)).1 = (runStream xs).1 ++ (runStream ys).1) := by
  refine ⟨?_, fun m => rfl, fun m => rfl, ?_⟩
  · intro s m hs
    cases s with
    | nil => exact absurd rfl hs
    | cons a l => simp [pyOr]
  · intro xs ys
    rw [runStream_append]

/-- C3 (witness for the amended claim). -/
theorem claim_C3_witness :
    pyOr (some "a".toList) (some "b".toList) = some "a".toList :=
  claim_C3_amended.1 "a".toList (some "b".toList) (by decide)

/-- C4: tag normalization (split on commas, strip each piece, drop empties,
rejoin with `", "`) is idempotent; on the raw input
`"cat, , dog ,  mountain,sky ,"` it yields `"cat, dog, mountain, sky"`; and
when the Model Client returned `None`, `get_image_tags` propagates `None`
without normalizing. -/
theorem claim_C4 :
    (∀ s : List Char, normTags (normTags s) = normTags s) ∧
    normTags "cat, , dog ,  mountain,sky ,".toList =
      "cat, dog, mountain, sky".toList ∧
    (∀ f : Fetch, get_ollama_response f = Except.ok none →
      get_image_tags f = Except.ok none) := by
  refine ⟨normTags_idem, by decide, ?_⟩
  intro f h
  simp [get_image_tags, h]

/-- C4 (witness): the absence-propagation part at a concrete failing fetch. -/
theorem claim_C4_witness : get_image_tags Fetch.connError = Except.ok none :=
  claim_C4.2.2 Fetch.connError (by decide)

/-- C9: there are streams for which the Model Client returns a PRESENT empty
string rather than `None`: a whitespace-only accumulator is truthy, so
`result.strip()` returns `""`; likewise `get_image_tags` returns a present
`""` when every comma piece strips to empty (raw `",,"`); the driver's
truthiness test then treats these as absence and invokes no writer. -/
theorem claim_C9 :
    get_ollama_response (Fetch.stream [Line.json (some " ".toList) none]) =
      Except.ok (some ([] : List Char)) ∧
    get_image_tags (Fetch.stream [Line.json (some ",,".toList) none]) =
      Except.ok (some ([] : List Char)) ∧
    processFile
      ⟨"a.jpg".toList, Fetch.stream [Line.json (some " ".toList) none],
       Fetch.stream [Line.json (some ",,".toList) none]⟩ =
      Except.ok [Event.info "a.jpg".toList, Event.warnNoCaption "a.jpg".toList] := by
  decide

/-- C5: for a qualifying file whose caption request yields the absence signal
(and whose tag request returns, with any value), the driver emits only the
`[INFO]` and `[WARN] No caption` messages — no writer is invoked, no caption
or tag is logged, any obtained tags are discarded — and the walk continues
with the remaining files. -/
theorem claim_C5 (f : FileEntry) (t : Option (List Char))
    (hext : lowerExt f.name ∈ SUPPORTED_EXTENSIONS)
    (hcap : get_image_caption f.captionFetch = Except.ok none)
    (htags : get_image_tags f.tagsFetch = Except.ok t) :
    processFile f = Except.ok [Event.info f.name, Event.warnNoCaption f.name] ∧
    (∀ rest : List FileEntry,
      process_folder (f :: rest) =
        (process_folder rest).map
          (fun evs => Event.info f.name :: Event.warnNoCaption f.name :: evs)) := by
  have h1 : processFile f = Except.ok [Event.info f.name, Event.warnNoCaption f.name] := by
    simp [processFile, hext, hcap, htags, fileEvents]
  refine ⟨h1, ?_⟩
  intro rest
  simp only [process_folder]
  rw [h1]
  cases process_folder rest with
  | error e => simp [Except.map]
  | ok evs => simp [Except.map]

/-- C5 (witness): a concrete jpeg file whose caption request fails with a
connection error (absence) and whose tag request fails with an HTTP error. -/
theorem claim_C5_witness :
    processFile ⟨"a.jpg".toList, Fetch.connError, Fetch.httpError⟩ =
      Except.ok [Event.info "a.jpg".toList, Event.warnNoCaption "a.jpg".toList] :=
  (claim_C5 ⟨"a.jpg".toList, Fetch.connError, Fetch.httpError⟩ none (by decide)
    (by decide) (by decide)).1

/-- C6: with a present (truthy) caption but an absent tag result, the
format-appropriate writer is still invoked with `tags = None` and writes only
the caption: the JPEG writer leaves tag 40094 exactly as it was while setting
`ImageDescription`, the PNG writer builds a container with only the
`Description` entry, and the driver dispatches the writer call with `None`
tags followed by the caption log and no tag log. -/
theorem claim_C6 :
    (∀ (exif0th : List (Nat × List Nat)) (caption : List Char),
      getTag (add_caption_and_tags_to_jpeg exif0th caption none) XPKeywordsTag =
        getTag exif0th XPKeywordsTag ∧
      getTag (add_caption_and_tags_to_jpeg exif0th caption none) ImageDescriptionTag =
        some (utf8Encode caption)) ∧
    (∀ (oldText : List (List Char × List Char)) (caption : List Char),
      add_caption_and_tags_to_png oldText caption none =
        [("Description".toList, caption)]) ∧
    (∀ (f : FileEntry) (c : List Char),
      lowerExt f.name ∈ [".jpg".toList, ".jpeg".toList] →
      get_image_caption f.captionFetch = Except.ok (some c) → c ≠ [] →
      get_image_tags f.tagsFetch = Except.ok none →
      processFile f = Except.ok [Event.info f.name, Event.jpegWrite f.name c none,
        Event.captionLog f.name c]) ∧
    (∀ (f : FileEntry) (c : List Char),
      lowerExt f.name = ".png".toList →
      get_image_caption f.captionFetch = Except.ok (some c) → c ≠ [] →
      get_image_tags f.tagsFetch = Except.ok none →
      processFile f = Except.ok [Event.info f.name, Event.pngWrite f.name c none,
        Event.captionLog f.name c]) := by
  refine ⟨?_, ?_, ?_, ?_⟩
  · intro exif0th caption
    constructor
    · exact getTag_setTag_ne exif0th (by decide) (utf8Encode caption)
    · exact getTag_setTag_self exif0th ImageDescriptionTag (utf8Encode caption)
  · intro oldText caption
    rfl
  · intro f c hj hcap hc htags
    have hce : c.isEmpty = false := by
      cases c
      · exact absurd rfl hc
      · rfl
    have hsup : lowerExt f.name ∈ SUPPORTED_EXTENSIONS := by
      rcases List.mem_cons.mp hj with h | h
      · rw [h]
        decide
      · rcases List.mem_cons.mp h with h2 | h2
        · rw [h2]
          decide
        · cases h2
    have hor : lowerExt f.name = ['.', 'j', 'p', 'g'] ∨
        lowerExt f.name = ['.', 'j', 'p', 'e', 'g'] := by
      simpa using hj
    simp [processFile, hsup, hcap, htags, fileEvents, hce, hor]
  · intro f c hp hcap hc htags
    have hce : c.isEmpty = false := by
      cases c
      · exact absurd rfl hc
      · rfl
    have hsup : lowerExt f.name ∈ SUPPORTED_EXTENSIONS := by
      rw [hp]
      decide
    have hnj : lowerExt f.name ∉ [".jpg".toList, ".jpeg".toList] := by
      rw [hp]
      decide
    simp [processFile, hsup, hcap, htags, fileEvents, hce, hnj, hp]
    decide

/-- C6 (witness): a concrete jpeg and a concrete png, each with a good
caption stream and a failed (absent) tag request. -/
theorem claim_C6_witness :
    processFile ⟨"a.jpg".toList,
        Fetch.stream [Line.json (some "A cat.".toList) none], Fetch.connError⟩ =
      Except.ok [Event.info "a.jpg".toList,
        Event.jpegWrite "a.jpg".toList "A cat.".toList none,
        Event.captionLog "a.jpg".toList "A cat.".toList] ∧
    processFile ⟨"b.PNG".toList,
        Fetch.stream [Line.json (some "A dog.".toList) none], Fetch.timeoutError⟩ =
      Except.ok [Event.info "b.PNG".toList,
        Event.pngWrite "b.PNG".toList "A dog.".toList none,
        Event.captionLog "b.PNG".toList "A dog.".toList] :=
  ⟨claim_C6.2.2.1 _ _ (by decide) (by decide) (by decide) (by decide),
   claim_C6.2.2.2 _ _ (by decide) (by decide) (by decide) (by decide)⟩

/-- C7: the walk selects a file for processing (emits at least its `[INFO]`
line, or dies trying) exactly when its extension, lowered, is `.jpg`, `.jpeg`
or `.png`; every other file is skipped without any action.  Concrete
spot-checks cover the case-insensitive matches and non-matching extensions,
including a name whose LAST suffix is not supported. -/
theorem claim_C7 :
    (∀ f : FileEntry,
      lowerExt f.name ∈ SUPPORTED_EXTENSIONS ↔ processFile f ≠ Except.ok []) ∧
    lowerExt "photo.JPG".toList ∈ SUPPORTED_EXTENSIONS ∧
    lowerExt "photo.JpEg".toList ∈ SUPPORTED_EXTENSIONS ∧
    lowerExt "photo.PNG".toList ∈ SUPPORTED_EXTENSIONS ∧
    lowerExt "notes.txt".toList ∉ SUPPORTED_EXTENSIONS ∧
    lowerExt "archive.jpg.bak".toList ∉ SUPPORTED_EXTENSIONS ∧
    lowerExt ".jpg".toList ∉ SUPPORTED_EXTENSIONS := by
  refine ⟨?_, by decide, by decide, by decide, by decide, by decide, by decide⟩
  intro f
  constructor
  · intro hm
    simp only [processFile, if_pos hm]
    cases get_image_caption f.captionFetch with
    | error e => simp
    | ok cap =>
      cases get_image_tags f.tagsFetch with
      | error e => simp
      | ok t => simp
  · intro hne
    by_contra hm
    exact hne (by simp [processFile, hm])

/-- C7 (witness): a concrete uppercase-extension file is selected. -/
theorem claim_C7_witness :
    processFile ⟨"photo.JPG".toList, Fetch.connError, Fetch.connError⟩ ≠
      Except.ok [] :=
  (claim_C7.1 ⟨"photo.JPG".toList, Fetch.connError, Fetch.connError⟩).mp (by decide)

/-- C8: for every caption and truthy tag string the JPEG writer stores the
caption as its UTF-8 bytes under `ImageDescription` and the tag string as its
UTF-16LE bytes with a trailing double null under tag 40094, and both decode
back (trimming the double null for the keywords) to exactly the original
strings; in particular for the caption `"A red apple on a table."` and tags
`"apple, red, table"`. -/
theorem claim_C8 :
    (∀ (exif0th : List (Nat × List Nat)) (caption t : List Char), t ≠ [] →
      getTag (add_caption_and_tags_to_jpeg exif0th caption (some t))
          ImageDescriptionTag = some (utf8Encode caption) ∧
      getTag (add_caption_and_tags_to_jpeg exif0th caption (some t))
          XPKeywordsTag = some (utf16leEncode t ++ [0, 0]) ∧
      utf8Decode (utf8Encode caption) = caption ∧
      utf16leDecode (trimDoubleNull (utf16leEncode t ++ [0, 0])) = t) ∧
    utf8Decode (utf8Encode "A red apple on a table.".toList) =
      "A red apple on a table.".toList ∧
    utf16leDecode (trimDoubleNull
        (utf16leEncode "apple, red, table".toList ++ [0, 0])) =
      "apple, red, table".toList := by
  refine ⟨?_, utf8Decode_encode _, ?_⟩
  · intro exif0th caption t ht
    have hte : t.isEmpty = false := by
      cases t
      · exact absurd rfl ht
      · rfl
    have hw : add_caption_and_tags_to_jpeg exif0th caption (some t) =
        setTag (setTag exif0th ImageDescriptionTag (utf8Encode caption))
          XPKeywordsTag (utf16leEncode t ++ [0, 0]) := by
      simp [add_caption_and_tags_to_jpeg, hte]
    refine ⟨?_, ?_, utf8Decode_encode caption, ?_⟩
    · rw [hw, getTag_setTag_ne _ (by decide), getTag_setTag_self]
    · rw [hw, getTag_setTag_self]
    · rw [trimDoubleNull_append, utf16leDecode_encode]
  · rw [trimDoubleNull_append, utf16leDecode_encode]

/-- C8 (witness): the storage equations at the concrete caption and tags from
the specification, on an initially empty EXIF dictionary. -/
theorem claim_C8_witness :
    getTag (add_caption_and_tags_to_jpeg [] "A red apple on a table.".toList
        (some "apple, red, table".toList)) XPKeywordsTag =
      some (utf16leEncode "apple, red, table".toList ++ [0, 0]) :=
  (claim_C8.1 [] "A red apple on a table.".toList "apple, red, table".toList
    (by decide)).2.1

/-- C10: the PNG writer builds its text-chunk container fresh from the
caption and tags alone — the text chunks of the original file are never
consulted (any two old chunk sets give the same result), and every chunk of
the container it writes is a `Description` or `Keywords` entry, so
pre-existing PNG text metadata is dropped when the file is rewritten. -/
theorem claim_C10 :
    (∀ (old1 old2 : List (List Char × List Char)) (caption : List Char)
        (tags : Option (List Char)),
      add_caption_and_tags_to_png old1 caption tags =
        add_caption_and_tags_to_png old2 caption tags) ∧
    (∀ (old : List (List Char × List Char)) (caption : List Char)
        (tags : Option (List Char)) (k v : List Char),
      (k, v) ∈ add_caption_and_tags_to_png old caption tags →
      k = "Description".toList ∨ k = "Keywords".toList) := by
  constructor
  · intro old1 old2 caption tags
    rfl
  · intro old caption tags k v h
    rcases tags with _ | t
    · simp [add_caption_and_tags_to_png] at h
      exact Or.inl h.1
    · by_cases ht : t.isEmpty
      · simp [add_caption_and_tags_to_png, ht] at h
        exact Or.inl h.1
      · simp [add_caption_and_tags_to_png, ht] at h
        rcases h with ⟨hk, _⟩ | ⟨hk, _⟩
        · exact Or.inl hk
        · exact Or.inr hk

/-- C10 (witness): an old chunk set is ignored, and the single chunk written
for a tagless call is the `Description` entry. -/
theorem claim_C10_witness :
    add_caption_and_tags_to_png [("Author".toList, "x".toList)]
        "A blue sky.".toList none =
      add_caption_and_tags_to_png [] "A blue sky.".toList none ∧
    ("Description".toList = "Description".toList ∨
      "Description".toList = "Keywords".toList) :=
  ⟨claim_C10.1 _ _ _ _,
   claim_C10.2 [] "A blue sky.".toList none "Description".toList
     "A blue sky.".toList (by decide)⟩
